import Mathlib

/-!
A verification development for the in-memory `TodoStore` of the example
REST service (`todo-api`): data model, CRUD with soft deletion, filtered
and sorted listing with pagination, and aggregate statistics.

The store is embedded shallowly: the JavaScript `Map<string, Todo>` is an
insertion-ordered association list whose key is the record's `id` field;
`Date` injection (`new Date().toISOString()`) becomes an explicit `now`
argument; JavaScript strings are compared and lowercased code-point-wise
on their character lists (modelling `<`, `localeCompare` and
`toLowerCase` on the ASCII data the store manipulates); `undefined`
versus explicit `null` in update patches is a three-state `Patch` type;
`Array.prototype.sort`, which is stable and comparator-driven, is a
stable insertion sort ordered by the source's comparator.
-/

namespace TodoApi

/-- Status values for todos (`TodoStatus` in `types/todo.ts`). -/
inductive TodoStatus
  | pending
  | in_progress
  | completed
  | cancelled
deriving DecidableEq, Repr

/-- Priority levels for todos (`TodoPriority` in `types/todo.ts`). -/
inductive TodoPriority
  | low
  | medium
  | high
  | urgent
deriving DecidableEq, Repr

/-- `PRIORITY_ORDER`: numeric ordinal used when sorting by priority. -/
def PRIORITY_ORDER : TodoPriority → Int
  | .urgent => 4
  | .high => 3
  | .medium => 2
  | .low => 1

/-- The full `Todo` entity (`interface Todo` in `types/todo.ts`).
`Option` stands for the nullable fields. -/
structure Todo where
  id : String
  title : String
  description : Option String
  status : TodoStatus
  priority : TodoPriority
  dueDate : Option String
  tags : List String
  createdAt : String
  updatedAt : String
  completedAt : Option String
  deletedAt : Option String
deriving DecidableEq, Repr

/-- Three-way code-point comparison of character lists, modelling both
JavaScript string `<` and `localeCompare` as used by the store. -/
def cmpChars : List Char → List Char → Int
  | [], [] => 0
  | [], _ :: _ => -1
  | _ :: _, [] => 1
  | a :: as, b :: bs =>
    if a.toNat < b.toNat then -1
    else if b.toNat < a.toNat then 1
    else cmpChars as bs

/-- Comparison of strings via their character lists. -/
def strCmp (a b : String) : Int := cmpChars a.data b.data

/-- `toLowerCase` modelled character-wise. -/
def jsToLower (s : String) : List Char := s.data.map Char.toLower

/-- Does `needle` start `hay`? (helper for substring search). -/
def leadsWith : List Char → List Char → Bool
  | [], _ => true
  | _ :: _, [] => false
  | c :: cs, d :: ds => c == d && leadsWith cs ds

/-- Contiguous-substring test on character lists, modelling
`String.prototype.includes`. -/
def occursAt (needle hay : List Char) : Bool :=
  match hay with
  | [] => leadsWith needle []
  | _ :: hs => leadsWith needle hay || occursAt needle hs

/-- JavaScript truthiness of an optional string: defined and non-empty. -/
def strTruthy : Option String → Bool
  | none => false
  | some s => decide (s ≠ "")

/-- The store's backing `Map<string, Todo>`: an insertion-ordered list of
records keyed by their `id` field. -/
abbrev TodoStore := List Todo

/-- `Map.get`: the (unique) record with the given id. -/
def mapGet (s : TodoStore) (i : String) : Option Todo :=
  s.find? (fun t => t.id == i)

/-- `Map.set`: replace the record with the given id in place, or append
when the key is new (JavaScript `Map` preserves insertion order and keeps
an existing key's position on overwrite). -/
def mapSet : TodoStore → String → Todo → TodoStore
  | [], _, x => [x]
  | t :: ts, i, x => if t.id = i then x :: ts else t :: mapSet ts i x

/-- `Map.delete`: remove the record with the given id, reporting whether
one was removed. -/
def mapDelete : TodoStore → String → Bool × TodoStore
  | [], _ => (false, [])
  | t :: ts, i =>
    if t.id = i then (true, ts)
    else
      let r := mapDelete ts i
      (r.1, t :: r.2)

/-- Well-formedness mirrored from `Map` key uniqueness: record ids are
pairwise distinct. -/
def WFStore (s : TodoStore) : Prop := (s.map Todo.id).Nodup

/-- `CreateTodoInput` after upstream Zod validation: `priority` and
`tags` have had their defaults applied, `description`/`dueDate` may be
absent. -/
structure CreateTodoInput where
  title : String
  description : Option String
  priority : TodoPriority
  dueDate : Option String
  tags : List String

/-- Three-state patch field: absent (`undefined`), explicit `null`, or a
value — the distinction `UpdateTodoInput` requires for nullable fields. -/
inductive Patch (α : Type)
  | absent
  | null
  | val (a : α)
deriving DecidableEq

/-- Apply a patch field to the previous optional value (the semantics of
`...(input.f !== undefined && { f: input.f })`). -/
def Patch.apply {α : Type} : Patch α → Option α → Option α
  | .absent, old => old
  | .null, _ => none
  | .val a, _ => some a

/-- `UpdateTodoInput`: every field optional; `description` and `dueDate`
additionally distinguish explicit `null` from absence. -/
structure UpdateTodoInput where
  title : Option String
  description : Patch String
  priority : Option TodoPriority
  status : Option TodoStatus
  dueDate : Patch String
  tags : Option (List String)

/-- The empty patch `{}`. -/
def emptyPatch : UpdateTodoInput :=
  { title := none, description := .absent, priority := none,
    status := none, dueDate := .absent, tags := none }

/-- `TodoStore.create`: build the new record (status `pending`, both
timestamps `now`, `completedAt`/`deletedAt` null) and insert it. The
generated uuid and the clock reading are explicit arguments. -/
def TodoStore.create (s : TodoStore) (newId : String) (now : String)
    (input : CreateTodoInput) : Todo × TodoStore :=
  let todo : Todo :=
    { id := newId
      title := input.title
      description := input.description
      status := .pending
      priority := input.priority
      dueDate := input.dueDate
      tags := input.tags
      createdAt := now
      updatedAt := now
      completedAt := none
      deletedAt := none }
  (todo, mapSet s newId todo)

/-- `TodoStore.findById`: the record with the given id, hidden when it is
soft-deleted and `includeDeleted` is not set. -/
def TodoStore.findById (s : TodoStore) (id : String)
    (includeDeleted : Bool := false) : Option Todo :=
  match mapGet s id with
  | none => none
  | some todo =>
    if !includeDeleted && todo.deletedAt ≠ none then none else some todo

/-- The record built by `TodoStore.update` for a found live record: the
spread merge of the supplied patch fields (stamping `updatedAt`),
followed by the source's completion-time tracking. -/
def updateRecord (todo : Todo) (input : UpdateTodoInput) (now : String) : Todo :=
  let merged : Todo :=
    { todo with
      title := input.title.getD todo.title
      description := input.description.apply todo.description
      priority := input.priority.getD todo.priority
      status := input.status.getD todo.status
      dueDate := input.dueDate.apply todo.dueDate
      tags := input.tags.getD todo.tags
      updatedAt := now }
  if input.status = some .completed ∧ todo.status ≠ .completed then
    { merged with completedAt := some now }
  else if input.status ≠ none ∧ input.status ≠ some .completed then
    { merged with completedAt := none }
  else merged

/-- `TodoStore.update`: merge the supplied patch fields over the live
record, stamp `updatedAt`, and track `completedAt` across status
transitions. Returns the result (or `none` when the id does not resolve
to a live record) together with the resulting store. -/
def TodoStore.update (s : TodoStore) (id : String) (input : UpdateTodoInput)
    (now : String) : Option Todo × TodoStore :=
  match TodoStore.findById s id with
  | none => (none, s)
  | some todo =>
    (some (updateRecord todo input now), mapSet s id (updateRecord todo input now))

/-- `TodoStore.softDelete`: stamp `deletedAt`/`updatedAt` on a live
record; `none` when the id does not resolve to a live record. -/
def TodoStore.softDelete (s : TodoStore) (id : String) (now : String) :
    Option Todo × TodoStore :=
  match TodoStore.findById s id with
  | none => (none, s)
  | some todo =>
    let deleted : Todo := { todo with deletedAt := some now, updatedAt := now }
    (some deleted, mapSet s id deleted)

/-- `TodoStore.hardDelete`: unconditional removal. -/
def TodoStore.hardDelete (s : TodoStore) (id : String) : Bool × TodoStore :=
  mapDelete s id

/-- `TodoStore.restore`: clear `deletedAt` on a currently soft-deleted
record; `none` when the record is missing or not soft-deleted. -/
def TodoStore.restore (s : TodoStore) (id : String) (now : String) :
    Option Todo × TodoStore :=
  match mapGet s id with
  | none => (none, s)
  | some todo =>
    if todo.deletedAt = none then (none, s)
    else
      let restored : Todo := { todo with deletedAt := none, updatedAt := now }
      (some restored, mapSet s id restored)

/-- Sort keys accepted by `findAll`. -/
inductive SortBy
  | createdAt
  | updatedAt
  | dueDate
  | priority
  | title
deriving DecidableEq, Repr

/-- Sort directions accepted by `findAll`. -/
inductive SortOrder
  | asc
  | desc
deriving DecidableEq, Repr

/-- `ListTodosQuery` after upstream Zod validation and defaulting. -/
structure ListTodosQuery where
  status : Option TodoStatus
  priority : Option TodoPriority
  search : Option String
  tag : Option String
  sortBy : SortBy
  sortOrder : SortOrder
  page : Nat
  limit : Nat
  includeDeleted : Bool

/-- The per-key comparison of `findAll`'s sort (the `switch` block):
for `dueDate`, a null on the left compares as `1` and on the right as
`-1`; the remaining keys compare their strings or priority ordinals. -/
def sortComparison (sb : SortBy) (a b : Todo) : Int :=
  match sb with
  | .title => strCmp a.title b.title
  | .priority => PRIORITY_ORDER a.priority - PRIORITY_ORDER b.priority
  | .dueDate =>
    match a.dueDate, b.dueDate with
    | none, none => 0
    | none, some _ => 1
    | some _, none => -1
    | some x, some y => strCmp x y
  | .updatedAt => strCmp a.updatedAt b.updatedAt
  | .createdAt => strCmp a.createdAt b.createdAt

/-- `sortMultiplier`: `1` for ascending, `-1` for descending. -/
def sortMultiplier : SortOrder → Int
  | .asc => 1
  | .desc => -1

/-- The complete comparator passed to `results.sort`. -/
def todoCmp (q : ListTodosQuery) (a b : Todo) : Int :=
  sortComparison q.sortBy a b * sortMultiplier q.sortOrder

/-- Visibility filter: soft-deleted records are dropped unless
`includeDeleted` is set. -/
def stageDeleted (q : ListTodosQuery) (r : List Todo) : List Todo :=
  if q.includeDeleted then r else r.filter (fun t => decide (t.deletedAt = none))

/-- Exact-match status filter, applied when a status is supplied. -/
def stageStatus (q : ListTodosQuery) (r : List Todo) : List Todo :=
  match q.status with
  | some st => r.filter (fun t => decide (t.status = st))
  | none => r

/-- Exact-match priority filter, applied when a priority is supplied. -/
def stagePriority (q : ListTodosQuery) (r : List Todo) : List Todo :=
  match q.priority with
  | some p => r.filter (fun t => decide (t.priority = p))
  | none => r

/-- Case-insensitive tag filter; `if (query.tag)` makes it apply only to
a supplied, non-empty (truthy) tag. -/
def stageTag (q : ListTodosQuery) (r : List Todo) : List Todo :=
  if strTruthy q.tag then
    let searchTag := jsToLower (q.tag.getD "")
    r.filter (fun t => t.tags.any (fun x => decide (jsToLower x = searchTag)))
  else r

/-- Case-insensitive free-text search over title or description; applies
only to a supplied, non-empty (truthy) search string. -/
def stageSearch (q : ListTodosQuery) (r : List Todo) : List Todo :=
  if strTruthy q.search then
    let searchLower := jsToLower (q.search.getD "")
    r.filter (fun t =>
      occursAt searchLower (jsToLower t.title) ||
        match t.description with
        | some d => occursAt searchLower (jsToLower d)
        | none => false)
  else r

/-- The filtering pipeline of `findAll`, in source order. -/
def filterTodos (s : TodoStore) (q : ListTodosQuery) : List Todo :=
  stageSearch q (stageTag q (stagePriority q (stageStatus q (stageDeleted q s))))

/-- The sorted pre-pagination match list of `findAll`: a stable sort of
the filtered records by the source's comparator (JavaScript
`Array.prototype.sort` is stable). -/
def sortedMatches (s : TodoStore) (q : ListTodosQuery) : List Todo :=
  List.insertionSort (fun a b => todoCmp q a b ≤ 0) (filterTodos s q)

/-- Pagination metadata returned by `findAll`. -/
structure Pagination where
  page : Nat
  limit : Nat
  total : Nat
  totalPages : Nat
  hasNextPage : Bool
  hasPrevPage : Bool
deriving DecidableEq, Repr

/-- `PaginatedResponse<Todo>`. -/
structure PaginatedResponse where
  data : List Todo
  pagination : Pagination
deriving DecidableEq, Repr

/-- `TodoStore.findAll`: filter, sort, then slice the page
`[(page-1)*limit, page*limit)`; `totalPages` is `Math.ceil(total/limit)`
(written for naturals with `limit ≥ 1` as `(total + limit - 1) / limit`). -/
def TodoStore.findAll (s : TodoStore) (q : ListTodosQuery) : PaginatedResponse :=
  let results := sortedMatches s q
  let total := results.length
  let totalPages := (total + q.limit - 1) / q.limit
  let start := (q.page - 1) * q.limit
  { data := (results.drop start).take q.limit
    pagination :=
      { page := q.page
        limit := q.limit
        total := total
        totalPages := totalPages
        hasNextPage := decide (q.page < totalPages)
        hasPrevPage := decide (1 < q.page) } }

/-- The statistics record returned by `getStats`; the `Record<string,
number>` groupings become total functions, a missing key reading as 0
(the source's `?? 0`). -/
structure TodoStats where
  total : Nat
  byStatus : TodoStatus → Nat
  byPriority : TodoPriority → Nat
  overdue : Nat

/-- The overdue test of `getStats`: a truthy (non-null, non-empty) due
date strictly before `now`, with status neither completed nor
cancelled. -/
def isOverdue (now : String) (t : Todo) : Bool :=
  match t.dueDate with
  | none => false
  | some d =>
    decide (d ≠ "") && decide (strCmp d now < 0) &&
      decide (t.status ≠ .completed) && decide (t.status ≠ .cancelled)

/-- One iteration of `getStats`'s accumulation loop. -/
def statsStep (now : String) (acc : TodoStats) (todo : Todo) : TodoStats :=
  { acc with
    byStatus := fun k =>
      if k = todo.status then acc.byStatus k + 1 else acc.byStatus k
    byPriority := fun k =>
      if k = todo.priority then acc.byPriority k + 1 else acc.byPriority k
    overdue := if isOverdue now todo then acc.overdue + 1 else acc.overdue }

/-- `TodoStore.getStats`: aggregate counts over the live records. A pure
read: it takes the store and returns only statistics, never a new
store. -/
def TodoStore.getStats (s : TodoStore) (now : String) : TodoStats :=
  let todos := s.filter (fun t => decide (t.deletedAt = none))
  let acc := todos.foldl (statsStep now)
    { total := 0, byStatus := fun _ => 0, byPriority := fun _ => 0, overdue := 0 }
  { total := todos.length
    byStatus := acc.byStatus
    byPriority := acc.byPriority
    overdue := acc.overdue }

/-- The `completedAt` policy exactly as the specification words it: a
supplied `completed` status over a previously non-completed record stamps
`now`; a supplied non-completed status clears the field; otherwise (no
status supplied, or `completed` over an already completed record) the
field is untouched. -/
def claimCompletedAt (p : UpdateTodoInput) (r : Todo) (now : String) :
    Option String :=
  match p.status with
  | some .completed => if r.status ≠ .completed then some now else r.completedAt
  | some .pending => none
  | some .in_progress => none
  | some .cancelled => none
  | none => r.completedAt

/-- Store states reachable from the empty store by any sequence of the
store's mutating operations, with arbitrary ids, clock readings, and
(pre-validated) inputs. -/
inductive Reachable : TodoStore → Prop
  | empty : Reachable []
  | create (s : TodoStore) (newId now : String) (input : CreateTodoInput) :
      Reachable s → Reachable (TodoStore.create s newId now input).2
  | update (s : TodoStore) (id : String) (input : UpdateTodoInput) (now : String) :
      Reachable s → Reachable (TodoStore.update s id input now).2
  | softDelete (s : TodoStore) (id now : String) :
      Reachable s → Reachable (TodoStore.softDelete s id now).2
  | restore (s : TodoStore) (id now : String) :
      Reachable s → Reachable (TodoStore.restore s id now).2
  | hardDelete (s : TodoStore) (id : String) :
      Reachable s → Reachable (TodoStore.hardDelete s id).2

/-- The completion bookkeeping invariant: a record carries a completion
timestamp exactly when its status is `completed`. -/
def CompletionInv (s : TodoStore) : Prop :=
  ∀ t ∈ s, (t.completedAt ≠ none ↔ t.status = .completed)

/-- The overdue predicate exactly as the claim words it: a non-null due
timestamp strictly before `now`, with status neither completed nor
cancelled. (Upstream validation only ever supplies ISO-8601 instants, so
due dates are never the empty string.) -/
def claimOverdueB (now : String) (t : Todo) : Bool :=
  t.dueDate.any (fun d => decide (strCmp d now < 0)) &&
    decide (t.status ≠ .completed) && decide (t.status ≠ .cancelled)

/-! ### Concrete fixtures used by witnesses and counterexamples -/

/-- A minimal pre-validated creation input. -/
def cInput : CreateTodoInput :=
  { title := "Write spec", description := none, priority := .medium
    dueDate := none, tags := [] }

/-- Mathematical ceiling of `a / b`, written from the specification's
`total pages = ceil(total/limit)` (for `b ≥ 1`). -/
def ceilDiv (a b : Nat) : Nat :=
  if a % b = 0 then a / b else a / b + 1

/-- A live baseline record. -/
def wBase : Todo :=
  { id := "a", title := "Write spec", description := none, status := .pending
    priority := .medium, dueDate := none, tags := ["work"]
    createdAt := "d0", updatedAt := "d0", completedAt := none, deletedAt := none }

/-- A store holding just the live baseline record. -/
def wStore : TodoStore := [wBase]

/-- The baseline record, soft-deleted. -/
def wDel : Todo := { wBase with deletedAt := some "d1", updatedAt := "d1" }

/-- A store holding just the soft-deleted record. -/
def wDelStore : TodoStore := [wDel]

/-- A patch supplying only `status := completed`. -/
def compPatch : UpdateTodoInput := { emptyPatch with status := some .completed }

/-- The i-th record of the 25-record pagination fixture. -/
def mk25 (i : Nat) : Todo := { wBase with id := String.mk [Char.ofNat (97 + i)] }

/-- A store of 25 live records with distinct ids. -/
def store25 : TodoStore := (List.range 25).map mk25

/-- The pagination fixture query: no filters, default sort, limit 10. -/
def q25 (page : Nat) : ListTodosQuery :=
  { status := none, priority := none, search := none, tag := none
    sortBy := .createdAt, sortOrder := .desc, page := page, limit := 10
    includeDeleted := false }

/-- The fixture query with soft-deleted records included. -/
def qIncl : ListTodosQuery := { q25 1 with includeDeleted := true }

/-- The fixture query supplying an empty-string tag filter. -/
def qTagEmpty : ListTodosQuery := { q25 1 with tag := some "" }

/-- The claim's match predicate, worded as the specification does, with
one amendment: the tag filter only applies when it is supplied *and
non-empty* (JavaScript truthiness skips an empty tag filter). -/
def matchesAmended (q : ListTodosQuery) (t : Todo) : Prop :=
  (q.includeDeleted = true ∨ t.deletedAt = none) ∧
  (∀ st, q.status = some st → t.status = st) ∧
  (∀ p, q.priority = some p → t.priority = p) ∧
  (∀ tg, q.tag = some tg → tg ≠ "" →
    ∃ x ∈ t.tags, jsToLower x = jsToLower tg) ∧
  (∀ sr, q.search = some sr →
    occursAt (jsToLower sr) (jsToLower t.title) = true ∨
      ∃ d, t.description = some d ∧ occursAt (jsToLower sr) (jsToLower d) = true)

/-- Nulls last: no record with a null due date precedes a record with a
non-null one. -/
def nullsLastOrder (l : List Todo) : Prop :=
  l.Pairwise (fun a b => a.dueDate = none → b.dueDate = none)

/-- Nulls first: no record with a non-null due date precedes a record
with a null one. -/
def nullsFirstOrder (l : List Todo) : Prop :=
  l.Pairwise (fun a b => b.dueDate = none → a.dueDate = none)

/-- A live record with a due date, for the dueDate-sorting fixture. -/
def wDue : Todo :=
  { wBase with id := "b", dueDate := some "2024-06-01T00:00:00.000Z" }

/-- A store mixing a null-dueDate record and a dated one. -/
def dueStore : TodoStore := [wBase, wDue]

/-- The fixture query sorting by dueDate descending. -/
def qDueDesc : ListTodosQuery := { q25 1 with sortBy := .dueDate }

/-- The fixture query sorting by dueDate ascending. -/
def qDueAsc : ListTodosQuery := { qDueDesc with sortOrder := .asc }

/-- The claim's match predicate exactly as stated: every supplied tag
filter — empty or not — must be matched by some tag of the record. -/
def matchesClaimed (q : ListTodosQuery) (t : Todo) : Prop :=
  (q.includeDeleted = true ∨ t.deletedAt = none) ∧
  (∀ st, q.status = some st → t.status = st) ∧
  (∀ p, q.priority = some p → t.priority = p) ∧
  (∀ tg, q.tag = some tg → ∃ x ∈ t.tags, jsToLower x = jsToLower tg) ∧
  (∀ sr, q.search = some sr →
    occursAt (jsToLower sr) (jsToLower t.title) = true ∨
      ∃ d, t.description = some d ∧ occursAt (jsToLower sr) (jsToLower d) = true)

/-! ### Basic lemmas about the backing map -/

theorem mem_of_mem_mapSet {s : TodoStore} {i : String} {x t : Todo}
    (h : t ∈ mapSet s i x) : t = x ∨ t ∈ s := by
  induction s with
  | nil => simp [mapSet] at h; exact Or.inl h
  | cons hd tl ih =>
    simp only [mapSet] at h
    split at h
    · rcases List.mem_cons.mp h with h | h
      · exact Or.inl h
      · exact Or.inr (List.mem_cons_of_mem _ h)
    · rcases List.mem_cons.mp h with h | h
      · exact Or.inr (h ▸ List.mem_cons_self _ _)
      · rcases ih h with h | h
        · exact Or.inl h
        · exact Or.inr (List.mem_cons_of_mem _ h)

theorem mem_mapSet_of_ne {s : TodoStore} {i : String} {x t : Todo}
    (ht : t ∈ s) (hne : t.id ≠ i) : t ∈ mapSet s i x := by
  induction s with
  | nil => cases ht
  | cons hd tl ih =>
    simp only [mapSet]
    by_cases h : hd.id = i <;> simp only [h, if_true, if_false, reduceIte]
    · rcases List.mem_cons.mp ht with rfl | hmem
      · exact absurd h hne
      · exact List.mem_cons_of_mem _ hmem
    · rcases List.mem_cons.mp ht with rfl | hmem
      · exact List.mem_cons_self _ _
      · exact List.mem_cons_of_mem _ (ih hmem)

theorem mapGet_eq_some {s : TodoStore} {i : String} {t : Todo}
    (h : mapGet s i = some t) : t ∈ s ∧ t.id = i := by
  refine ⟨List.mem_of_find?_eq_some h, ?_⟩
  have := List.find?_some h
  simpa using this

theorem mapGet_mapSet_self {s : TodoStore} {i : String} {x : Todo}
    (hx : x.id = i) : mapGet (mapSet s i x) i = some x := by
  induction s with
  | nil => simp [mapSet, mapGet, List.find?, hx]
  | cons hd tl ih =>
    simp only [mapSet]
    by_cases h : hd.id = i
    · rw [if_pos h]
      unfold mapGet
      rw [List.find?_cons_of_pos _ (by simp [hx])]
    · rw [if_neg h]
      unfold mapGet at ih ⊢
      rw [List.find?_cons_of_neg _ (by simp [h])]
      exact ih

theorem id_mem_of_mem_mapSet {s : TodoStore} {i : String} {x t : Todo}
    (h : t ∈ mapSet s i x) : t.id = x.id ∨ t.id ∈ s.map Todo.id := by
  rcases mem_of_mem_mapSet h with rfl | h
  · exact Or.inl rfl
  · exact Or.inr (List.mem_map_of_mem _ h)

theorem WFStore_mapSet {s : TodoStore} {i : String} {x : Todo}
    (hs : WFStore s) (hx : x.id = i) : WFStore (mapSet s i x) := by
  induction s with
  | nil => simp [mapSet, WFStore]
  | cons hd tl ih =>
    rcases List.nodup_cons.mp hs with ⟨hhd, htl⟩
    simp only [mapSet]
    by_cases h : hd.id = i <;> simp only [h, if_true, if_false, reduceIte]
    · refine List.nodup_cons.mpr ⟨?_, htl⟩
      rw [hx, ← h]; exact hhd
    · refine List.nodup_cons.mpr ⟨?_, ih htl⟩
      intro hmem
      rcases List.mem_map.mp hmem with ⟨u, hu, hid⟩
      rcases mem_of_mem_mapSet hu with rfl | hu
      · exact h (hid ▸ hx ▸ rfl)
      · exact hhd (hid ▸ List.mem_map_of_mem _ hu)

theorem eq_of_mem_of_id_eq {s : TodoStore} {t u : Todo} (hs : WFStore s)
    (ht : t ∈ s) (hu : u ∈ s) (hid : t.id = u.id) : t = u := by
  induction s with
  | nil => cases ht
  | cons hd tl ih =>
    rcases List.nodup_cons.mp hs with ⟨hhd, htl⟩
    rcases List.mem_cons.mp ht with rfl | ht' <;>
      rcases List.mem_cons.mp hu with h | hu'
    · exact h.symm
    · exact absurd (hid ▸ List.mem_map_of_mem Todo.id hu') hhd
    · exact absurd (hid ▸ List.mem_map_of_mem Todo.id ht') (h ▸ hhd)
    · exact ih htl ht' hu'

theorem mem_of_mem_mapDelete {s : TodoStore} {i : String} {t : Todo}
    (h : t ∈ (mapDelete s i).2) : t ∈ s := by
  induction s with
  | nil => simp [mapDelete] at h
  | cons hd tl ih =>
    simp only [mapDelete] at h
    split at h
    · exact List.mem_cons_of_mem _ h
    · rcases List.mem_cons.mp h with rfl | h
      · exact List.mem_cons_self _ _
      · exact List.mem_cons_of_mem _ (ih h)

theorem findById_some_false {s : TodoStore} {i : String} {r : Todo} :
    TodoStore.findById s i = some r ↔ mapGet s i = some r ∧ r.deletedAt = none := by
  unfold TodoStore.findById
  cases h : mapGet s i with
  | none => simp
  | some t =>
    constructor
    · intro hr
      have hr' :
          (if (!false && decide (t.deletedAt ≠ none)) = true then none
            else some t) = some r := hr
      by_cases hd : t.deletedAt = none
      · rw [if_neg (by simp [hd])] at hr'
        cases hr'
        exact ⟨rfl, hd⟩
      · rw [if_pos (by simp [hd])] at hr'
        cases hr'
    · rintro ⟨ht, hdel⟩
      cases ht
      show (if (!false && decide (r.deletedAt ≠ none)) = true then none
        else some r) = some r
      rw [if_neg (by simp [hdel])]

/-! ### C10 — operations that signal absence leave the store untouched -/

/-- C10: whenever `update`, `softDelete`, or `restore` returns an absent
result, the resulting store is exactly the input store. -/
theorem absent_result_frame (s : TodoStore) (id : String)
    (p : UpdateTodoInput) (now : String) :
    ((TodoStore.update s id p now).1 = none → (TodoStore.update s id p now).2 = s) ∧
    ((TodoStore.softDelete s id now).1 = none → (TodoStore.softDelete s id now).2 = s) ∧
    ((TodoStore.restore s id now).1 = none → (TodoStore.restore s id now).2 = s) := by
  refine ⟨?_, ?_, ?_⟩
  · unfold TodoStore.update
    cases h : TodoStore.findById s id <;> simp
  · unfold TodoStore.softDelete
    cases h : TodoStore.findById s id <;> simp
  · unfold TodoStore.restore
    cases h : mapGet s id
    · simp
    · simp only
      split <;> simp

/-- Witness for C10 at the empty store, where all three calls return
absence. -/
theorem absent_result_frame_witness :
    (TodoStore.update [] "a" emptyPatch "t").2 = [] ∧
    (TodoStore.softDelete [] "a" "t").2 = [] ∧
    (TodoStore.restore [] "a" "t").2 = [] :=
  ⟨(absent_result_frame [] "a" emptyPatch "t").1 (by decide),
   (absent_result_frame [] "a" emptyPatch "t").2.1 (by decide),
   (absent_result_frame [] "a" emptyPatch "t").2.2 (by decide)⟩

/-! ### Equation lemmas for the operations -/

theorem update_none {s : TodoStore} {id : String} {p : UpdateTodoInput}
    {now : String} (h : TodoStore.findById s id = none) :
    TodoStore.update s id p now = (none, s) := by
  unfold TodoStore.update; rw [h]

theorem update_some {s : TodoStore} {id : String} {p : UpdateTodoInput}
    {now : String} {todo : Todo} (h : TodoStore.findById s id = some todo) :
    TodoStore.update s id p now =
      (some (updateRecord todo p now), mapSet s id (updateRecord todo p now)) := by
  unfold TodoStore.update; rw [h]

theorem softDelete_none {s : TodoStore} {id : String} {now : String}
    (h : TodoStore.findById s id = none) :
    TodoStore.softDelete s id now = (none, s) := by
  unfold TodoStore.softDelete; rw [h]

theorem softDelete_some {s : TodoStore} {id : String} {now : String}
    {todo : Todo} (h : TodoStore.findById s id = some todo) :
    TodoStore.softDelete s id now =
      (some { todo with deletedAt := some now, updatedAt := now },
        mapSet s id { todo with deletedAt := some now, updatedAt := now }) := by
  unfold TodoStore.softDelete; rw [h]

theorem restore_none {s : TodoStore} {id : String} {now : String}
    (h : mapGet s id = none) : TodoStore.restore s id now = (none, s) := by
  unfold TodoStore.restore; rw [h]

theorem restore_eq {s : TodoStore} {id : String} {now : String} {todo : Todo}
    (h : mapGet s id = some todo) :
    TodoStore.restore s id now =
      if todo.deletedAt = none then (none, s)
      else (some { todo with deletedAt := none, updatedAt := now },
        mapSet s id { todo with deletedAt := none, updatedAt := now }) := by
  unfold TodoStore.restore; rw [h]

theorem findById_none_of_deleted {s : TodoStore} {id : String} {r : Todo}
    (h : mapGet s id = some r) (hdel : r.deletedAt ≠ none) :
    TodoStore.findById s id = none := by
  cases hfb : TodoStore.findById s id with
  | none => rfl
  | some u =>
    rcases findById_some_false.mp hfb with ⟨hg, hdel'⟩
    rw [h] at hg
    cases hg
    exact absurd hdel' hdel

theorem findById_none_of_mapGet_none {s : TodoStore} {id : String}
    {b : Bool} (h : mapGet s id = none) :
    TodoStore.findById s id b = none := by
  unfold TodoStore.findById; rw [h]

/-! ### C7 — absence, never exceptions, for missing or filtered ids -/

/-- C7: operations on a missing id, a `restore` of a live record, and a
`softDelete`/`update`/`findById` of a soft-deleted record all return an
absent result (the embedding is total, so no operation can raise). -/
theorem notFound_is_absence (s : TodoStore) (id : String)
    (p : UpdateTodoInput) (now : String) :
    (mapGet s id = none →
      TodoStore.findById s id = none ∧
      TodoStore.findById s id true = none ∧
      (TodoStore.update s id p now).1 = none ∧
      (TodoStore.softDelete s id now).1 = none ∧
      (TodoStore.restore s id now).1 = none) ∧
    (∀ r, mapGet s id = some r → r.deletedAt = none →
      (TodoStore.restore s id now).1 = none) ∧
    (∀ r, mapGet s id = some r → r.deletedAt ≠ none →
      TodoStore.findById s id = none ∧
      (TodoStore.softDelete s id now).1 = none ∧
      (TodoStore.update s id p now).1 = none) := by
  refine ⟨?_, ?_, ?_⟩
  · intro h
    have hf : TodoStore.findById s id = none := findById_none_of_mapGet_none h
    exact ⟨hf, findById_none_of_mapGet_none h, by rw [update_none hf],
      by rw [softDelete_none hf], by rw [restore_none h]⟩
  · intro r h hdel
    rw [restore_eq h, if_pos hdel]
  · intro r h hdel
    have hf : TodoStore.findById s id = none := findById_none_of_deleted h hdel
    exact ⟨hf, by rw [softDelete_none hf], by rw [update_none hf]⟩

/-- Witness for C7: a missing id, a live record being restored, and a
soft-deleted record being soft-deleted again all yield absence. -/
theorem notFound_is_absence_witness :
    (TodoStore.update wStore "zz" emptyPatch "t").1 = none ∧
    (TodoStore.restore wStore "a" "t").1 = none ∧
    (TodoStore.softDelete wDelStore "a" "t").1 = none :=
  ⟨((notFound_is_absence wStore "zz" emptyPatch "t").1 (by decide)).2.2.1,
   (notFound_is_absence wStore "a" emptyPatch "t").2.1 wBase (by decide) (by decide),
   ((notFound_is_absence wDelStore "a" emptyPatch "t").2.2 wDel (by decide)
      (by decide)).2.1⟩

/-! ### C8 — an empty patch only touches `updatedAt` -/

theorem updateRecord_emptyPatch (r : Todo) (now : String) :
    updateRecord r emptyPatch now = { r with updatedAt := now } := by
  unfold updateRecord
  simp [emptyPatch, Patch.apply]

/-- C8: updating a live record with the empty patch returns the record
with `updatedAt` stamped and every other field identical. -/
theorem update_emptyPatch (s : TodoStore) (id : String) (now : String)
    (r : Todo) (h : TodoStore.findById s id = some r) :
    (TodoStore.update s id emptyPatch now).1 = some { r with updatedAt := now } := by
  rw [update_some h, updateRecord_emptyPatch]

/-- Witness for C8 on the baseline store. -/
theorem update_emptyPatch_witness :
    (TodoStore.update wStore "a" emptyPatch "t2").1 =
      some { wBase with updatedAt := "t2" } :=
  update_emptyPatch wStore "a" "t2" wBase (by decide)

/-! ### C2 — `updatedAt` stamping and the `completedAt` policy -/

theorem updateRecord_updatedAt (todo : Todo) (p : UpdateTodoInput)
    (now : String) : (updateRecord todo p now).updatedAt = now := by
  unfold updateRecord
  split_ifs <;> rfl

theorem updateRecord_completedAt (todo : Todo) (p : UpdateTodoInput)
    (now : String) :
    (updateRecord todo p now).completedAt = claimCompletedAt p todo now := by
  unfold updateRecord claimCompletedAt
  cases hst : p.status with
  | none => simp [hst]
  | some st =>
    cases st <;> by_cases hc : todo.status = .completed <;> simp [hst, hc]

/-- C2: `update` on a live record stamps `updatedAt := now` and sets
`completedAt` exactly per the specified policy; on an id that does not
resolve to a live record it returns absence. -/
theorem update_completedAt_policy (s : TodoStore) (id : String)
    (p : UpdateTodoInput) (now : String) :
    (TodoStore.findById s id = none → (TodoStore.update s id p now).1 = none) ∧
    (∀ r, TodoStore.findById s id = some r →
      ∃ u, (TodoStore.update s id p now).1 = some u ∧
        u.updatedAt = now ∧ u.completedAt = claimCompletedAt p r now) := by
  constructor
  · intro h
    rw [update_none h]
  · intro r h
    exact ⟨updateRecord r p now, by rw [update_some h],
      updateRecord_updatedAt r p now, updateRecord_completedAt r p now⟩

/-- Witness for C2: completing the live pending record stamps
`completedAt`. -/
theorem update_completedAt_policy_witness :
    ∃ u, (TodoStore.update wStore "a" compPatch "t2").1 = some u ∧
      u.updatedAt = "t2" ∧ u.completedAt = claimCompletedAt compPatch wBase "t2" :=
  (update_completedAt_policy wStore "a" compPatch "t2").2 wBase (by decide)

/-! ### C3 — the completion invariant holds in every reachable state -/

theorem updateRecord_status (todo : Todo) (p : UpdateTodoInput) (now : String) :
    (updateRecord todo p now).status = p.status.getD todo.status := by
  unfold updateRecord
  split_ifs <;> rfl

theorem updateRecord_inv (todo : Todo) (p : UpdateTodoInput) (now : String)
    (h : todo.completedAt ≠ none ↔ todo.status = .completed) :
    ((updateRecord todo p now).completedAt ≠ none ↔
      (updateRecord todo p now).status = .completed) := by
  rw [updateRecord_completedAt, updateRecord_status]
  unfold claimCompletedAt
  cases hst : p.status with
  | none => simpa using h
  | some st =>
    cases st with
    | completed =>
      by_cases hc : todo.status = .completed
      · simpa [hc] using h.mpr hc
      · simp [hc]
    | pending => simp
    | in_progress => simp
    | cancelled => simp

/-- C3: in every store state reachable from the empty store, every record
has `completedAt ≠ null` exactly when its status is `completed`. -/
theorem reachable_completedAt_invariant {s : TodoStore} (h : Reachable s) :
    CompletionInv s := by
  induction h with
  | empty => intro t ht; cases ht
  | create s newId now input hs ih =>
    intro t ht
    simp only [TodoStore.create] at ht
    rcases mem_of_mem_mapSet ht with rfl | ht'
    · simp
    · exact ih t ht'
  | update s id input now hs ih =>
    intro t ht
    cases hf : TodoStore.findById s id with
    | none => rw [update_none hf] at ht; exact ih t ht
    | some todo =>
      rw [update_some hf] at ht
      rcases mem_of_mem_mapSet ht with rfl | ht'
      · have htodo : todo ∈ s := (mapGet_eq_some (findById_some_false.mp hf).1).1
        exact updateRecord_inv todo input now (ih todo htodo)
      · exact ih t ht'
  | softDelete s id now hs ih =>
    intro t ht
    cases hf : TodoStore.findById s id with
    | none => rw [softDelete_none hf] at ht; exact ih t ht
    | some todo =>
      rw [softDelete_some hf] at ht
      rcases mem_of_mem_mapSet ht with rfl | ht'
      · have htodo : todo ∈ s := (mapGet_eq_some (findById_some_false.mp hf).1).1
        simpa using ih todo htodo
      · exact ih t ht'
  | restore s id now hs ih =>
    intro t ht
    cases hf : mapGet s id with
    | none => rw [restore_none hf] at ht; exact ih t ht
    | some todo =>
      rw [restore_eq hf] at ht
      by_cases hd : todo.deletedAt = none
      · rw [if_pos hd] at ht; exact ih t ht
      · rw [if_neg hd] at ht
        rcases mem_of_mem_mapSet ht with rfl | ht'
        · have htodo : todo ∈ s := (mapGet_eq_some hf).1
          simpa using ih todo htodo
        · exact ih t ht'
  | hardDelete s id hs ih =>
    intro t ht
    exact ih t (mem_of_mem_mapDelete ht)

/-- Witness for C3: a concrete reachable state (create, then complete)
satisfies the invariant. -/
theorem reachable_completedAt_invariant_witness :
    CompletionInv
      (TodoStore.update (TodoStore.create [] "a" "d0" cInput).2 "a" compPatch
        "d1").2 :=
  reachable_completedAt_invariant
    (Reachable.update _ "a" compPatch "d1"
      (Reachable.create [] "a" "d0" cInput Reachable.empty))

/-! ### C9 — `getStats` aggregates over live records -/

theorem statsFold_byStatus (now : String) (l : List Todo) (acc : TodoStats)
    (k : TodoStatus) :
    (l.foldl (statsStep now) acc).byStatus k =
      acc.byStatus k + (l.filter (fun t => decide (t.status = k))).length := by
  induction l generalizing acc with
  | nil => simp
  | cons t ts ih =>
    rw [List.foldl_cons, ih]
    by_cases h : k = t.status
    · simp [statsStep, List.filter_cons, h]
      omega
    · simp [statsStep, List.filter_cons, h, Ne.symm h]

theorem statsFold_byPriority (now : String) (l : List Todo) (acc : TodoStats)
    (k : TodoPriority) :
    (l.foldl (statsStep now) acc).byPriority k =
      acc.byPriority k + (l.filter (fun t => decide (t.priority = k))).length := by
  induction l generalizing acc with
  | nil => simp
  | cons t ts ih =>
    rw [List.foldl_cons, ih]
    by_cases h : k = t.priority
    · simp [statsStep, List.filter_cons, h]
      omega
    · simp [statsStep, List.filter_cons, h, Ne.symm h]

theorem statsFold_overdue (now : String) (l : List Todo) (acc : TodoStats) :
    (l.foldl (statsStep now) acc).overdue =
      acc.overdue + (l.filter (isOverdue now)).length := by
  induction l generalizing acc with
  | nil => simp
  | cons t ts ih =>
    rw [List.foldl_cons, ih]
    by_cases h : isOverdue now t = true
    · simp [statsStep, List.filter_cons, h]
      omega
    · simp [statsStep, List.filter_cons, h]

theorem isOverdue_eq_claim {t : Todo} (now : String)
    (h : t.dueDate ≠ some "") : isOverdue now t = claimOverdueB now t := by
  unfold isOverdue claimOverdueB
  cases hd : t.dueDate with
  | none => simp
  | some d =>
    have hne : d ≠ "" := by
      rintro rfl
      exact h hd
    simp [hne]

/-- C9: `getStats` counts only live records — total, per-status and
per-priority groupings, and the overdue count per the claim's overdue
predicate. (The embedding returns only statistics, never a store, so the
read is pure by construction.) The hypothesis reflects upstream
validation: stored due dates are ISO instants, never the empty string. -/
theorem getStats_aggregates (s : TodoStore) (now : String)
    (hvalid : ∀ t ∈ s, t.dueDate ≠ some "") :
    (TodoStore.getStats s now).total =
      (s.filter (fun t => decide (t.deletedAt = none))).length ∧
    (∀ k, (TodoStore.getStats s now).byStatus k =
      ((s.filter (fun t => decide (t.deletedAt = none))).filter
        (fun t => decide (t.status = k))).length) ∧
    (∀ k, (TodoStore.getStats s now).byPriority k =
      ((s.filter (fun t => decide (t.deletedAt = none))).filter
        (fun t => decide (t.priority = k))).length) ∧
    (TodoStore.getStats s now).overdue =
      ((s.filter (fun t => decide (t.deletedAt = none))).filter
        (claimOverdueB now)).length := by
  refine ⟨rfl, fun k => ?_, fun k => ?_, ?_⟩
  · show ((s.filter (fun t => decide (t.deletedAt = none))).foldl (statsStep now)
        { total := 0, byStatus := fun _ => 0, byPriority := fun _ => 0,
          overdue := 0 }).byStatus k = _
    rw [statsFold_byStatus]
    simp
  · show ((s.filter (fun t => decide (t.deletedAt = none))).foldl (statsStep now)
        { total := 0, byStatus := fun _ => 0, byPriority := fun _ => 0,
          overdue := 0 }).byPriority k = _
    rw [statsFold_byPriority]
    simp
  · show ((s.filter (fun t => decide (t.deletedAt = none))).foldl (statsStep now)
        { total := 0, byStatus := fun _ => 0, byPriority := fun _ => 0,
          overdue := 0 }).overdue = _
    rw [statsFold_overdue,
      List.filter_congr
        (fun t ht => isOverdue_eq_claim now (hvalid t (List.mem_of_mem_filter ht)))]
    simp

/-- Witness for C9 on a concrete two-record store (one record
soft-deleted). -/
theorem getStats_aggregates_witness :
    (TodoStore.getStats [wBase, wDel] "d2").total =
      (([wBase, wDel] : TodoStore).filter
        (fun t => decide (t.deletedAt = none))).length ∧
    (TodoStore.getStats [wBase, wDel] "d2").byStatus .pending =
      ((([wBase, wDel] : TodoStore).filter
        (fun t => decide (t.deletedAt = none))).filter
        (fun t => decide (t.status = .pending))).length ∧
    (TodoStore.getStats [wBase, wDel] "d2").overdue =
      ((([wBase, wDel] : TodoStore).filter
        (fun t => decide (t.deletedAt = none))).filter
        (claimOverdueB "d2")).length :=
  ⟨(getStats_aggregates [wBase, wDel] "d2" (by decide)).1,
   (getStats_aggregates [wBase, wDel] "d2" (by decide)).2.1 .pending,
   (getStats_aggregates [wBase, wDel] "d2" (by decide)).2.2.2⟩

/-! ### C4 — pagination slicing and metadata -/

theorem ceilDiv_eq (t l : Nat) (hl : 1 ≤ l) : (t + l - 1) / l = ceilDiv t l := by
  have h0 : 0 < l := hl
  have hm : l * (t / l) + t % l = t := Nat.div_add_mod t l
  unfold ceilDiv
  by_cases hr : t % l = 0
  · rw [if_pos hr]
    have he : t + l - 1 = l * (t / l) + (l - 1) := by omega
    rw [he, Nat.mul_add_div h0]
    have hz : (l - 1) / l = 0 := Nat.div_eq_of_lt (by omega)
    omega
  · rw [if_neg hr]
    have hlt : t % l < l := Nat.mod_lt t h0
    have hmul : l * (t / l + 1) = l * (t / l) + l := by ring
    have he : t + l - 1 = l * (t / l + 1) + (t % l - 1) := by omega
    rw [he, Nat.mul_add_div h0]
    have hz : (t % l - 1) / l = 0 := Nat.div_eq_of_lt (by omega)
    omega

theorem sortedMatches_length (s : TodoStore) (q : ListTodosQuery) :
    (sortedMatches s q).length = (filterTodos s q).length :=
  (List.perm_insertionSort _ _).length_eq

/-- C4: `findAll` returns the slice of length at most `limit` starting at
offset `(page−1)·limit` of the sorted matches, with `total` the
pre-pagination match count, `totalPages = ceil(total/limit)`,
`hasNextPage = (page < totalPages)` and `hasPrevPage = (page > 1)`; in
particular, on the 25-record fixture with limit 10, page 1 yields 10
records (next page, no previous) and page 3 yields 5 (previous, no next),
with 3 total pages. -/
theorem findAll_pagination :
    (∀ (s : TodoStore) (q : ListTodosQuery), 1 ≤ q.limit →
      (TodoStore.findAll s q).data =
        ((sortedMatches s q).drop ((q.page - 1) * q.limit)).take q.limit ∧
      (TodoStore.findAll s q).pagination.page = q.page ∧
      (TodoStore.findAll s q).pagination.limit = q.limit ∧
      (TodoStore.findAll s q).pagination.total = (filterTodos s q).length ∧
      (TodoStore.findAll s q).pagination.totalPages =
        ceilDiv (filterTodos s q).length q.limit ∧
      (TodoStore.findAll s q).pagination.hasNextPage =
        decide (q.page < (TodoStore.findAll s q).pagination.totalPages) ∧
      (TodoStore.findAll s q).pagination.hasPrevPage = decide (1 < q.page)) ∧
    ((TodoStore.findAll store25 (q25 1)).data.length = 10 ∧
      (TodoStore.findAll store25 (q25 1)).pagination.hasNextPage = true ∧
      (TodoStore.findAll store25 (q25 1)).pagination.hasPrevPage = false ∧
      (TodoStore.findAll store25 (q25 3)).data.length = 5 ∧
      (TodoStore.findAll store25 (q25 3)).pagination.hasNextPage = false ∧
      (TodoStore.findAll store25 (q25 3)).pagination.hasPrevPage = true ∧
      (TodoStore.findAll store25 (q25 1)).pagination.totalPages = 3) := by
  constructor
  · intro s q hl
    refine ⟨rfl, rfl, rfl, sortedMatches_length s q, ?_, rfl, rfl⟩
    show ((sortedMatches s q).length + q.limit - 1) / q.limit = _
    rw [sortedMatches_length s q, ceilDiv_eq _ _ hl]
  · exact ⟨by decide, by decide, by decide, by decide, by decide, by decide,
      by decide⟩

/-- Witness for C4's general part, instantiated on the one-record store. -/
theorem findAll_pagination_witness :
    (TodoStore.findAll wStore (q25 1)).data =
      ((sortedMatches wStore (q25 1)).drop
        (((q25 1).page - 1) * (q25 1).limit)).take (q25 1).limit ∧
    (TodoStore.findAll wStore (q25 1)).pagination.page = (q25 1).page ∧
    (TodoStore.findAll wStore (q25 1)).pagination.limit = (q25 1).limit ∧
    (TodoStore.findAll wStore (q25 1)).pagination.total =
      (filterTodos wStore (q25 1)).length ∧
    (TodoStore.findAll wStore (q25 1)).pagination.totalPages =
      ceilDiv (filterTodos wStore (q25 1)).length (q25 1).limit ∧
    (TodoStore.findAll wStore (q25 1)).pagination.hasNextPage =
      decide ((q25 1).page <
        (TodoStore.findAll wStore (q25 1)).pagination.totalPages) ∧
    (TodoStore.findAll wStore (q25 1)).pagination.hasPrevPage =
      decide (1 < (q25 1).page) :=
  findAll_pagination.1 wStore (q25 1) (by decide)

/-! ### C5 — filter semantics of `findAll` -/

theorem occursAt_nil (h : List Char) : occursAt [] h = true := by
  cases h <;> simp [occursAt, leadsWith]

theorem jsToLower_empty : jsToLower "" = [] := rfl

theorem mem_stageDeleted {q : ListTodosQuery} {r : List Todo} {t : Todo} :
    t ∈ stageDeleted q r ↔ t ∈ r ∧ (q.includeDeleted = true ∨ t.deletedAt = none) := by
  unfold stageDeleted
  cases h : q.includeDeleted <;> simp [h, List.mem_filter]

theorem mem_stageStatus {q : ListTodosQuery} {r : List Todo} {t : Todo} :
    t ∈ stageStatus q r ↔ t ∈ r ∧ (∀ st, q.status = some st → t.status = st) := by
  unfold stageStatus
  cases h : q.status with
  | none => simp [h]
  | some st => simp [h, List.mem_filter]

theorem mem_stagePriority {q : ListTodosQuery} {r : List Todo} {t : Todo} :
    t ∈ stagePriority q r ↔ t ∈ r ∧ (∀ p, q.priority = some p → t.priority = p) := by
  unfold stagePriority
  cases h : q.priority with
  | none => simp [h]
  | some p => simp [h, List.mem_filter]

theorem mem_stageTag {q : ListTodosQuery} {r : List Todo} {t : Todo} :
    t ∈ stageTag q r ↔ t ∈ r ∧
      (∀ tg, q.tag = some tg → tg ≠ "" →
        ∃ x ∈ t.tags, jsToLower x = jsToLower tg) := by
  unfold stageTag
  cases h : q.tag with
  | none => simp [h, strTruthy]
  | some tg =>
    by_cases he : tg = ""
    · subst he
      simp [h, strTruthy]
    · simp [h, strTruthy, he, List.mem_filter, List.any_eq_true]

theorem searchPred_eq (t : Todo) (sr : String) :
    ((occursAt (jsToLower sr) (jsToLower t.title) ||
      match t.description with
      | some d => occursAt (jsToLower sr) (jsToLower d)
      | none => false) = true) ↔
    (occursAt (jsToLower sr) (jsToLower t.title) = true ∨
      ∃ d, t.description = some d ∧
        occursAt (jsToLower sr) (jsToLower d) = true) := by
  cases hd : t.description <;> simp [hd]

theorem mem_stageSearch {q : ListTodosQuery} {r : List Todo} {t : Todo} :
    t ∈ stageSearch q r ↔ t ∈ r ∧
      (∀ sr, q.search = some sr →
        occursAt (jsToLower sr) (jsToLower t.title) = true ∨
          ∃ d, t.description = some d ∧
            occursAt (jsToLower sr) (jsToLower d) = true) := by
  unfold stageSearch
  cases h : q.search with
  | none => simp [h, strTruthy]
  | some sr =>
    by_cases he : sr = ""
    · subst he
      simp [h, strTruthy, jsToLower_empty, occursAt_nil]
    · rw [if_pos (by simp [h, strTruthy, he])]
      rw [List.mem_filter]
      simp only [h, Option.getD_some, Option.some.injEq]
      constructor
      · rintro ⟨htr, hp⟩
        refine ⟨htr, ?_⟩
        rintro sr' rfl
        exact (searchPred_eq t sr).mp hp
      · rintro ⟨htr, hp⟩
        exact ⟨htr, (searchPred_eq t sr).mpr (hp sr rfl)⟩

theorem mem_filterTodos {s : TodoStore} {q : ListTodosQuery} {t : Todo} :
    t ∈ filterTodos s q ↔ t ∈ s ∧ matchesAmended q t := by
  unfold filterTodos matchesAmended
  rw [mem_stageSearch, mem_stageTag, mem_stagePriority, mem_stageStatus,
    mem_stageDeleted]
  tauto

theorem mem_sortedMatches {s : TodoStore} {q : ListTodosQuery} {t : Todo} :
    t ∈ sortedMatches s q ↔ t ∈ s ∧ matchesAmended q t := by
  rw [sortedMatches, List.mem_insertionSort, mem_filterTodos]

/-- C5 counterexample: a supplied empty tag filter is skipped by the code
(JavaScript truthiness), so the record with tags `["work"]` is among the
matches although none of its tags equals the supplied empty tag — the
claimed biconditional fails as stated. -/
theorem filter_semantics_tag_counterexample :
    wBase ∈ sortedMatches wStore qTagEmpty ∧ ¬ matchesClaimed qTagEmpty wBase := by
  constructor
  · decide
  · intro h
    obtain ⟨-, -, -, htag, -⟩ := h
    obtain ⟨x, hx, hlow⟩ := htag "" rfl
    have hx' : x = "work" := by simpa [wBase] using hx
    rw [hx'] at hlow
    exact absurd hlow (by decide)

/-- C5 (amended): a record is among the pre-pagination matches iff it is
in the store and passes the conjunction of the supplied filters, where
the tag filter applies only when supplied and non-empty. -/
theorem findAll_filter_semantics (s : TodoStore) (q : ListTodosQuery)
    (t : Todo) : t ∈ sortedMatches s q ↔ t ∈ s ∧ matchesAmended q t :=
  mem_sortedMatches

/-- Witness for C5 at the baseline store and the unfiltered query. -/
theorem findAll_filter_semantics_witness :
    wBase ∈ sortedMatches wStore (q25 1) ↔
      wBase ∈ wStore ∧ matchesAmended (q25 1) wBase :=
  findAll_filter_semantics wStore (q25 1) wBase

/-! ### C6 — soft-delete hides, `includeDeleted` reveals, restore revives -/

theorem matchesAmended_of_noFilters {q : ListTodosQuery}
    (h : q.status = none ∧ q.priority = none ∧ q.tag = none ∧ q.search = none)
    {t : Todo} (hvis : q.includeDeleted = true ∨ t.deletedAt = none) :
    matchesAmended q t := by
  obtain ⟨h1, h2, h3, h4⟩ := h
  exact ⟨hvis, by simp [h1], by simp [h2], by simp [h3], by simp [h4]⟩

/-- C6: soft-deleting a live record hides it from default `findById` and
from the default (live-only) match list, while `includeDeleted` still
reveals it in both; a subsequent restore clears `deletedAt` and makes the
record visible again under defaults. `q0` is any unfiltered query with
`includeDeleted = false`, `q1` any unfiltered query with
`includeDeleted = true`. -/
theorem softDelete_restore_visibility (s : TodoStore) (id now now2 : String)
    (r : Todo) (q0 q1 : ListTodosQuery) (hwf : WFStore s)
    (hr : TodoStore.findById s id = some r)
    (hq0 : q0.status = none ∧ q0.priority = none ∧ q0.tag = none ∧
      q0.search = none ∧ q0.includeDeleted = false)
    (hq1 : q1.status = none ∧ q1.priority = none ∧ q1.tag = none ∧
      q1.search = none ∧ q1.includeDeleted = true) :
    (TodoStore.softDelete s id now).1 =
      some { r with deletedAt := some now, updatedAt := now } ∧
    TodoStore.findById (TodoStore.softDelete s id now).2 id = none ∧
    TodoStore.findById (TodoStore.softDelete s id now).2 id true =
      some { r with deletedAt := some now, updatedAt := now } ∧
    (∀ t ∈ sortedMatches (TodoStore.softDelete s id now).2 q0, t.id ≠ id) ∧
    { r with deletedAt := some now, updatedAt := now } ∈
      sortedMatches (TodoStore.softDelete s id now).2 q1 ∧
    (TodoStore.restore (TodoStore.softDelete s id now).2 id now2).1 =
      some { r with deletedAt := none, updatedAt := now2 } ∧
    TodoStore.findById
        (TodoStore.restore (TodoStore.softDelete s id now).2 id now2).2 id =
      some { r with deletedAt := none, updatedAt := now2 } ∧
    { r with deletedAt := none, updatedAt := now2 } ∈
      sortedMatches
        (TodoStore.restore (TodoStore.softDelete s id now).2 id now2).2 q0 := by
  obtain ⟨hg, hlive⟩ := findById_some_false.mp hr
  have hid : r.id = id := (mapGet_eq_some hg).2
  have hsd := @softDelete_some s id now r hr
  have hs2 : (TodoStore.softDelete s id now).2 =
      mapSet s id { r with deletedAt := some now, updatedAt := now } := by
    rw [hsd]
  have hr'id : ({ r with deletedAt := some now, updatedAt := now } : Todo).id
      = id := hid
  have hget2 : mapGet
      (mapSet s id { r with deletedAt := some now, updatedAt := now }) id =
      some { r with deletedAt := some now, updatedAt := now } :=
    mapGet_mapSet_self hr'id
  have hwf2 : WFStore
      (mapSet s id { r with deletedAt := some now, updatedAt := now }) :=
    WFStore_mapSet hwf hr'id
  have hres : TodoStore.restore (TodoStore.softDelete s id now).2 id now2 =
      (some { r with deletedAt := none, updatedAt := now2 },
        mapSet (mapSet s id { r with deletedAt := some now, updatedAt := now })
          id { r with deletedAt := none, updatedAt := now2 }) := by
    rw [hs2, restore_eq hget2, if_neg (by simp)]
  have hget3 : mapGet
      (mapSet (mapSet s id { r with deletedAt := some now, updatedAt := now })
        id { r with deletedAt := none, updatedAt := now2 }) id =
      some { r with deletedAt := none, updatedAt := now2 } :=
    mapGet_mapSet_self hid
  refine ⟨by rw [hsd], ?_, ?_, ?_, ?_, by rw [hres], ?_, ?_⟩
  · rw [hs2]
    exact findById_none_of_deleted hget2 (by simp)
  · rw [hs2]
    unfold TodoStore.findById
    rw [hget2]
    simp
  · rw [hs2]
    intro t ht hti
    have ht' := mem_sortedMatches.mp ht
    have hvis := ht'.2.1
    rw [hq0.2.2.2.2] at hvis
    have htdel : t.deletedAt = none := by simpa using hvis
    have hteq : t = { r with deletedAt := some now, updatedAt := now } :=
      eq_of_mem_of_id_eq hwf2 ht'.1 (mapGet_eq_some hget2).1
        (by rw [hti, hr'id])
    rw [hteq] at htdel
    simp at htdel
  · rw [hs2]
    exact mem_sortedMatches.mpr ⟨(mapGet_eq_some hget2).1,
      matchesAmended_of_noFilters ⟨hq1.1, hq1.2.1, hq1.2.2.1, hq1.2.2.2.1⟩
        (Or.inl hq1.2.2.2.2)⟩
  · rw [hres]
    exact findById_some_false.mpr ⟨hget3, rfl⟩
  · rw [hres]
    exact mem_sortedMatches.mpr ⟨(mapGet_eq_some hget3).1,
      matchesAmended_of_noFilters ⟨hq0.1, hq0.2.1, hq0.2.2.1, hq0.2.2.2.1⟩
        (Or.inr rfl)⟩

/-- Witness for C6 on the baseline store. -/
theorem softDelete_restore_visibility_witness :
    TodoStore.findById (TodoStore.softDelete wStore "a" "d1").2 "a" = none ∧
    { wBase with deletedAt := some "d1", updatedAt := "d1" } ∈
      sortedMatches (TodoStore.softDelete wStore "a" "d1").2 qIncl ∧
    TodoStore.findById
        (TodoStore.restore (TodoStore.softDelete wStore "a" "d1").2 "a"
          "d2").2 "a" =
      some { wBase with deletedAt := none, updatedAt := "d2" } :=
  ⟨(softDelete_restore_visibility wStore "a" "d1" "d2" wBase (q25 1) qIncl
      (by unfold WFStore; decide) (by decide) (by decide) (by decide)).2.1,
   (softDelete_restore_visibility wStore "a" "d1" "d2" wBase (q25 1) qIncl
      (by unfold WFStore; decide) (by decide) (by decide) (by decide)).2.2.2.2.1,
   (softDelete_restore_visibility wStore "a" "d1" "d2" wBase (q25 1) qIncl
      (by unfold WFStore; decide) (by decide) (by decide) (by decide)).2.2.2.2.2.2.1⟩

/-! ### C1 — placement of null due dates in the sorted order -/

theorem cmpChars_antisymm : ∀ (a b : List Char), cmpChars a b = -cmpChars b a
  | [], [] => by simp [cmpChars]
  | [], _ :: _ => by simp [cmpChars]
  | _ :: _, [] => by simp [cmpChars]
  | a :: as, b :: bs => by
    simp only [cmpChars]
    rcases Nat.lt_trichotomy a.toNat b.toNat with h | h | h
    · rw [if_pos h, if_neg (by omega), if_pos h]
    · rw [if_neg (by omega), if_neg (by omega), if_neg (by omega),
        if_neg (by omega)]
      exact cmpChars_antisymm as bs
    · rw [if_neg (by omega), if_pos h, if_pos h]
      norm_num

theorem cmpChars_le_trans : ∀ (a b c : List Char),
    cmpChars a b ≤ 0 → cmpChars b c ≤ 0 → cmpChars a c ≤ 0
  | [], _, [] => by intro _ _; simp [cmpChars]
  | [], _, _ :: _ => by intro _ _; simp [cmpChars]
  | _ :: _, [], _ => by intro h _; simp [cmpChars] at h
  | _ :: _, _ :: _, [] => by intro _ h; simp [cmpChars] at h
  | a :: as, b :: bs, c :: cs => by
    intro h1 h2
    simp only [cmpChars] at h1 h2 ⊢
    split_ifs at h1 h2 ⊢ <;> try omega
    all_goals exact cmpChars_le_trans as bs cs h1 h2

theorem dueCmp_antisymm (a b : Todo) :
    sortComparison .dueDate a b = -sortComparison .dueDate b a := by
  simp only [sortComparison]
  rcases ha : a.dueDate with _ | x <;> rcases hb : b.dueDate with _ | y <;>
    simp [strCmp]
  exact cmpChars_antisymm x.data y.data

theorem dueCmp_le_trans {a b c : Todo}
    (h1 : sortComparison .dueDate a b ≤ 0)
    (h2 : sortComparison .dueDate b c ≤ 0) :
    sortComparison .dueDate a c ≤ 0 := by
  simp only [sortComparison] at h1 h2 ⊢
  rcases ha : a.dueDate with _ | x <;> rcases hb : b.dueDate with _ | y <;>
    rcases hc : c.dueDate with _ | z <;>
    simp only [ha, hb, hc] at h1 h2 ⊢ <;> try omega
  exact cmpChars_le_trans x.data y.data z.data h1 h2

theorem todoCmp_due_asc (q : ListTodosQuery) (hsb : q.sortBy = .dueDate)
    (hso : q.sortOrder = .asc) (a b : Todo) :
    todoCmp q a b = sortComparison .dueDate a b := by
  simp [todoCmp, hsb, hso, sortMultiplier]

theorem todoCmp_due_desc (q : ListTodosQuery) (hsb : q.sortBy = .dueDate)
    (hso : q.sortOrder = .desc) (a b : Todo) :
    todoCmp q a b = -sortComparison .dueDate a b := by
  simp [todoCmp, hsb, hso, sortMultiplier]

/-- C1 counterexample: on a store holding one record without a due date
and one with, sorting by dueDate *descending* places the null-dueDate
record first — the claimed nulls-last placement fails for `desc`. -/
theorem dueDate_nulls_desc_counterexample :
    ¬ nullsLastOrder (sortedMatches dueStore qDueDesc) ∧
    (sortedMatches dueStore qDueDesc).map Todo.dueDate =
      [none, some "2024-06-01T00:00:00.000Z"] := by
  constructor
  · unfold nullsLastOrder
    decide
  · decide

/-- C1 (amended): sorting by dueDate ascending places all null due dates
after all non-null ones; sorting descending — because the source
multiplies the null tie-break by the direction multiplier as well —
places all null due dates before all non-null ones. -/
theorem dueDate_nulls_placement (s : TodoStore) (q : ListTodosQuery)
    (hsb : q.sortBy = .dueDate) :
    (q.sortOrder = .asc → nullsLastOrder (sortedMatches s q)) ∧
    (q.sortOrder = .desc → nullsFirstOrder (sortedMatches s q)) := by
  constructor
  · intro hso
    have hsort : List.Sorted (fun a b => todoCmp q a b ≤ 0) (sortedMatches s q) := by
      unfold sortedMatches
      letI : IsTotal Todo (fun a b => todoCmp q a b ≤ 0) := ⟨fun a b => by
        rw [todoCmp_due_asc q hsb hso, todoCmp_due_asc q hsb hso]
        have := dueCmp_antisymm a b
        omega⟩
      letI : IsTrans Todo (fun a b => todoCmp q a b ≤ 0) := ⟨fun a b c h1 h2 => by
        rw [todoCmp_due_asc q hsb hso] at h1 h2 ⊢
        exact dueCmp_le_trans h1 h2⟩
      exact List.sorted_insertionSort _ _
    refine List.Pairwise.imp ?_ hsort
    intro a b hab hnull
    rw [todoCmp_due_asc q hsb hso] at hab
    rcases hb : b.dueDate with _ | y
    · rfl
    · exfalso
      simp only [sortComparison, hnull, hb] at hab
      omega
  · intro hso
    have hsort : List.Sorted (fun a b => todoCmp q a b ≤ 0) (sortedMatches s q) := by
      unfold sortedMatches
      letI : IsTotal Todo (fun a b => todoCmp q a b ≤ 0) := ⟨fun a b => by
        rw [todoCmp_due_desc q hsb hso, todoCmp_due_desc q hsb hso]
        have := dueCmp_antisymm a b
        omega⟩
      letI : IsTrans Todo (fun a b => todoCmp q a b ≤ 0) := ⟨fun a b c h1 h2 => by
        rw [todoCmp_due_desc q hsb hso] at h1 h2 ⊢
        have := dueCmp_antisymm a b
        have := dueCmp_antisymm b c
        have := dueCmp_antisymm a c
        have := dueCmp_le_trans (a := c) (b := b) (c := a)
        omega⟩
      exact List.sorted_insertionSort _ _
    refine List.Pairwise.imp ?_ hsort
    intro a b hab hnull
    rw [todoCmp_due_desc q hsb hso] at hab
    rcases ha : a.dueDate with _ | x
    · rfl
    · exfalso
      simp only [sortComparison, hnull, ha] at hab
      omega

/-- Witness for C1 on the two-record fixture, in both directions. -/
theorem dueDate_nulls_placement_witness :
    nullsLastOrder (sortedMatches dueStore qDueAsc) ∧
    nullsFirstOrder (sortedMatches dueStore qDueDesc) :=
  ⟨(dueDate_nulls_placement dueStore qDueAsc (by decide)).1 (by decide),
   (dueDate_nulls_placement dueStore qDueDesc (by decide)).2 (by decide)⟩

end TodoApi
